import Mathlib

/-!
Verification of the JSON parsing layer, language aggregation and
session-state transitions of `streamlit_app.py` (the Proxima message
viewer).  Python values reachable from `json.loads` plus the handful of
Python-level distinctions the code relies on (notably that `bool` is a
subclass of `int`, and that a missing dict key and JSON `null` are both
Python `None`) are embedded as the inductive type `JVal`; the parsing
functions `parse_messages`, `_parse_links` and `_parse_lang_map` are
translated into `Except String` valued functions, and the session-state
handlers (language selector clamping, add-language commit, translation
save) into explicit state-passing functions.
-/

namespace Proxima

/-- Embedding of the Python values the app manipulates: JSON values as
produced by `json.loads`, where a JSON `null` and an absent dict key both
become Python `None` (constructor `null`).  Dict keys are arbitrary values
because the parser takes `Any` and explicitly guards `isinstance(k, str)`. -/
inductive JVal where
  | null
  | bool (b : Bool)
  | int (n : Int)
  | str (s : String)
  | list (items : List JVal)
  | obj (entries : List (JVal × JVal))

/-- A Python value that passed an `isinstance(x, int)` check.  Python
`bool` is a subclass of `int`, so a boolean passes the check and is stored
unchanged; we keep the distinction. -/
inductive PyInt where
  | int (n : Int)
  | bool (b : Bool)
deriving DecidableEq, Repr

/-- The `Link` dataclass of the source: `id`, native `title`, optional
`translate` map (association list in insertion order). -/
structure Link where
  id : PyInt
  title : String
  translate : List (String × String)
deriving DecidableEq, Repr

/-- The `Message` dataclass of the source. -/
structure Message where
  id : PyInt
  image_id : Option PyInt
  text : Option String
  links : List Link
  translate : List (String × String)
deriving DecidableEq, Repr

/-- Python `k == key` for a dict key `k` against a string literal key:
only a string key can equal a string. -/
def keyMatches : JVal → String → Bool
  | .str s, key => s == key
  | _, _ => false

/-- Python `d.get(key)`: the value stored under `key`, or `None`
(`JVal.null`) when the key is absent. -/
def dictGet : List (JVal × JVal) → String → JVal
  | [], _ => .null
  | (k, v) :: rest, key => if keyMatches k key then v else dictGet rest key

/-- Python `isinstance(x, int)` together with the value it lets through:
ints and bools pass (bool subclasses int), everything else fails. -/
def asPyInt : JVal → Option PyInt
  | .int n => some (.int n)
  | .bool b => some (.bool b)
  | _ => none

/-- The check `image_id is not None and not isinstance(image_id, int)`:
`none` means the check raises, `some` carries the accepted optional int. -/
def asOptInt : JVal → Option (Option PyInt)
  | .null => some none
  | .int n => some (some (.int n))
  | .bool b => some (some (.bool b))
  | _ => none

/-- The check `text is not None and (not isinstance(text, str) or text == "")`:
`none` means the check raises, `some` carries the accepted optional text. -/
def asOptText : JVal → Option (Option String)
  | .null => some none
  | .str s => if s = "" then none else some (some s)
  | _ => none

/-- The check `not isinstance(title, str) or title == ""` on a required
non-empty string field. -/
def asNonEmptyStr : JVal → Option String
  | .str s => if s = "" then none else some s
  | _ => none

/-- Python `str.strip()`: drop leading and trailing whitespace.  Defined
on the character list so that it evaluates inside the kernel. -/
def pyStrip (s : String) : String :=
  String.mk (((s.data.dropWhile Char.isWhitespace).reverse.dropWhile Char.isWhitespace).reverse)

/-- Python dict assignment `out[k] = v` on an insertion-ordered
association list: overwrite in place if the key exists, else append. -/
def updateAssoc (m : List (String × String)) (k v : String) : List (String × String) :=
  if m.any (fun p => p.1 == k) then m.map (fun p => if p.1 = k then (k, v) else p)
  else m ++ [(k, v)]

/-- Loop body of `_parse_lang_map` over `obj.items()` with accumulator
`out`, mirroring the two raises of the source:
`if not isinstance(k, str) or not k` and
`if not isinstance(v, str) or v == ""`. -/
def parseLangMapItems (ctx : String) : List (JVal × JVal) → List (String × String) →
    Except String (List (String × String))
  | [], out => .ok out
  | (k, v) :: rest, out =>
    match k with
    | .str ks =>
      if ks = "" then .error (ctx ++ " keys must be non-empty strings (lang codes)")
      else
        match v with
        | .str vs =>
          if vs = "" then .error (ctx ++ ("[" ++ (ks ++ "] must be a non-empty string")))
          else parseLangMapItems ctx rest (updateAssoc out ks vs)
        | _ => .error (ctx ++ ("[" ++ (ks ++ "] must be a non-empty string")))
    | _ => .error (ctx ++ " keys must be non-empty strings (lang codes)")

/-- `_parse_lang_map(obj, ctx)` of the source: `None` becomes the empty
map, a non-dict raises, otherwise each entry is validated in order. -/
def parse_lang_map (v : JVal) (ctx : String) : Except String (List (String × String)) :=
  match v with
  | .null => .ok []
  | .obj entries => parseLangMapItems ctx entries []
  | _ => .error (ctx ++ " must be an object/dict \x7blang: text\x7d")

/-- A dict key passing the source's `isinstance(k, str) and k` guard. -/
def keyOk : JVal → Bool
  | .str s => if s = "" then false else true
  | _ => false

/-- A dict value passing the source's `isinstance(v, str) and v != ""`
guard. -/
def valOk : JVal → Bool
  | .str s => if s = "" then false else true
  | _ => false

/-- A language-map entry whose key and value both pass their guards. -/
def entryOk (p : JVal × JVal) : Bool := keyOk p.1 && valOk p.2

/-- Python `isinstance(x, dict)`. -/
def isDict : JVal → Bool
  | .obj _ => true
  | _ => false

/-- One iteration of the `_parse_links` loop at index `i`: the element
must be a dict, then `id`, then `title`, then `translate` are checked in
exactly the source's order. -/
def linkParse1 (ctx : String) (i : Nat) (it : JVal) : Except String Link :=
  match it with
  | .obj kvs =>
    match asPyInt (dictGet kvs "id") with
    | none => .error (ctx ++ ("[" ++ (toString i ++ "].id must be an integer")))
    | some lid =>
      match asNonEmptyStr (dictGet kvs "title") with
      | none => .error (ctx ++ ("[" ++ (toString i ++ "].title must be a non-empty string")))
      | some title =>
        match parse_lang_map (dictGet kvs "translate") (ctx ++ ("[" ++ (toString i ++ "].translate"))) with
        | .error e => .error e
        | .ok tr => .ok ⟨lid, title, tr⟩
  | _ => .error (ctx ++ ("[" ++ (toString i ++ "] must be an object")))

/-- Generic indexed fail-fast loop: the shape shared by the `for i, it in
enumerate(...)` loops of `_parse_links` and `parse_messages`, which append
to an output list and raise on the first bad element. -/
def itemLoop {β : Type} (f : Nat → JVal → Except String β) : Nat → List JVal → Except String (List β)
  | _, [] => .ok []
  | i, x :: xs =>
    match f i x with
    | .error e => .error e
    | .ok b =>
      match itemLoop f (i + 1) xs with
      | .error e => .error e
      | .ok out => .ok (b :: out)

/-- `_parse_links(obj, ctx)` of the source. -/
def parse_links (v : JVal) (ctx : String) : Except String (List Link) :=
  match v with
  | .null => .ok []
  | .list xs => itemLoop (linkParse1 ctx) 0 xs
  | _ => .error (ctx ++ " must be a list")

/-- The context string `messages[i]` used by `parse_messages`. -/
def msgCtx (i : Nat) : String := "messages[" ++ (toString i ++ "]")

/-- One iteration of the `parse_messages` loop at index `i`: dict check,
then `id`, `image_id`, `text`, `links`, `translate` in the source's order. -/
def msgParse1 (i : Nat) (it : JVal) : Except String Message :=
  match it with
  | .obj kvs =>
    match asPyInt (dictGet kvs "id") with
    | none => .error (msgCtx i ++ ".id must be an integer")
    | some mid =>
      match asOptInt (dictGet kvs "image_id") with
      | none => .error (msgCtx i ++ ".image_id must be an integer if provided")
      | some image_id =>
        match asOptText (dictGet kvs "text") with
        | none => .error (msgCtx i ++ ".text must be a non-empty string if provided")
        | some text =>
          match parse_links (dictGet kvs "links") (msgCtx i ++ ".links") with
          | .error e => .error e
          | .ok links =>
            match parse_lang_map (dictGet kvs "translate") (msgCtx i ++ ".translate") with
            | .error e => .error e
            | .ok tr => .ok ⟨mid, image_id, text, links, tr⟩
  | _ => .error (msgCtx i ++ " must be an object")

/-- `parse_messages(payload)` of the source: the root must be a list and
every element is parsed fail-fast in order. -/
def parse_messages (payload : JVal) : Except String (List Message) :=
  match payload with
  | .list xs => itemLoop msgParse1 0 xs
  | _ => .error "Root must be a JSON list: Messages[...]"

/-- Boolean lexicographic comparison of character lists by code point,
the order Python `sorted` uses on strings. -/
def lexLe : List Char → List Char → Bool
  | [], _ => true
  | _ :: _, [] => false
  | a :: as, b :: bs => if a < b then true else if b < a then false else lexLe as bs

/-- Lexicographic `≤` on strings by code point. -/
def strLe (a b : String) : Bool := lexLe a.data b.data

/-- `strLe` as a proposition, the sort order of `sorted` on strings. -/
def strLeP (a b : String) : Prop := strLe a b = true

instance : DecidableRel strLeP := fun a b => instDecidableEqBool (strLe a b) true

/-- Language codes contributed by one link: the keys of its `translate`
map. -/
def linkKeys (lk : Link) : List String := lk.translate.map Prod.fst

/-- Language codes contributed by one message: the keys of its own
`translate` map and of every link's `translate` map, as collected by the
`langs.update(...)` calls of the source. -/
def msgKeys (m : Message) : List String :=
  m.translate.map Prod.fst ++ (m.links.map linkKeys).flatten

/-- All language-code occurrences across a message list. -/
def allLangKeys (msgs : List Message) : List String := (msgs.map msgKeys).flatten

/-- `collect_available_langs(messages)` of the source.  Python builds a
`set` and returns `sorted(langs)`; the unique result — the sorted
duplicate-free enumeration of the keys — is modelled as a lexicographic
insertion sort of the deduplicated key list. -/
def collect_available_langs (msgs : List Message) : List String :=
  List.insertionSort strLeP (allLangKeys msgs).dedup

/-- The per-session state of the app: the stored value of
`st.session_state["selected_lang"]` (with its `"<None>"` sentinel), the
`extra_langs` set (modelled as a duplicate-free list), the `adding_lang`
flag, the `overlay_error` slot, and the per-`(message id, lang)` draft
translations `draft_tr_{id}_{lang}`. -/
structure SessionState where
  selected_lang : String
  extra_langs : List String
  adding_lang : Bool
  overlay_error : Option String
  drafts : List ((PyInt × String) × String)
deriving DecidableEq, Repr

/-- `get_selected_lang()` of the source: `None` iff the stored value is
the sentinel `"<None>"`. -/
def get_selected_lang (st : SessionState) : Option String :=
  if st.selected_lang = "<None>" then none else some st.selected_lang

/-- `set_selected_lang(lang)` of the source. -/
def set_selected_lang (l : Option String) (st : SessionState) : SessionState :=
  { st with selected_lang := match l with | none => "<None>" | some s => s }

/-- Python `set.add` on the list model of a set. -/
def setAdd (s : List String) (x : String) : List String :=
  if x ∈ s then s else s ++ [x]

/-- The `save_lang_btn` handler: strip the input; when empty set the
overlay error and rerun (aborting the handler), otherwise add the stripped
code to `extra_langs`, select it and leave add mode. -/
def commitAddLanguage (new_lang : String) (st : SessionState) : SessionState :=
  let nl := pyStrip new_lang
  if nl = "" then { st with overlay_error := some "Language name is empty." }
  else { st with extra_langs := setAdd st.extra_langs nl, selected_lang := nl,
                 adding_lang := false }

/-- The draft text stored under `draft_tr_{id}_{lang}`, with the
`(st.session_state[draft_key] or "")` default of the source. -/
def lookupDraft (st : SessionState) (mid : PyInt) (lang : String) : String :=
  match st.drafts.find? (fun p => decide (p.1 = (mid, lang))) with
  | some p => p.2
  | none => ""

/-- The `Save` button handler of `render_text_block`: strip the draft;
when empty set the overlay error and rerun (aborting before the provider
is consulted); otherwise call `provider.add_translation` and on success
write the stripped text into the message's `translate` map, on failure
surface the provider's error.  `st.rerun()` raises in Streamlit, so each
branch ends the handler. -/
def save_click (message : Message) (lang : String)
    (provider : PyInt → String → String → Option String)
    (st : SessionState) : SessionState × Message :=
  let candidate := pyStrip (lookupDraft st message.id lang)
  if candidate = "" then
    ({ st with overlay_error := some "Translation is empty." }, message)
  else
    match provider message.id lang candidate with
    | none => (st, { message with translate := updateAssoc message.translate lang candidate })
    | some err => ({ st with overlay_error := some err }, message)

/-- The defensive selector validation performed on every render:
`all_langs = ["<None>"] + sorted(set(base_langs) | set(extra))`, and a
stored selection outside `all_langs` is reset to `"<None>"`. -/
def render_clamp (stored : String) (base_langs extra : List String) : String :=
  let all_langs := "<None>" :: List.insertionSort strLeP ((base_langs ++ extra).dedup)
  if stored ∈ all_langs then stored else "<None>"

/-- The `Ok` button of the overlay: clear the error. -/
def acknowledgeError (st : SessionState) : SessionState :=
  { st with overlay_error := none }

/-- String concatenation is associative. -/
theorem str_append_assoc (a b c : String) : a ++ b ++ c = a ++ (b ++ c) := by
  cases a with | mk la =>
  cases b with | mk lb =>
  cases c with | mk lc =>
  show String.mk (la ++ lb ++ lc) = String.mk (la ++ (lb ++ lc))
  rw [List.append_assoc]

/-- The lexicographic comparison is total. -/
theorem lexLe_total : ∀ as bs : List Char, lexLe as bs = true ∨ lexLe bs as = true
  | [], _ => Or.inl rfl
  | _ :: _, [] => Or.inr rfl
  | a :: as, b :: bs => by
    by_cases hab : a < b
    · left; simp [lexLe, hab]
    · by_cases hba : b < a
      · right; simp [lexLe, hba]
      · rcases lexLe_total as bs with h | h
        · left; simp [lexLe, hab, hba, h]
        · right; simp [lexLe, hab, hba, h]

/-- The lexicographic comparison is transitive. -/
theorem lexLe_trans : ∀ as bs cs : List Char,
    lexLe as bs = true → lexLe bs cs = true → lexLe as cs = true
  | [], _, _, _, _ => rfl
  | _ :: _, [], _, h₁, _ => by simp [lexLe] at h₁
  | _ :: _, _ :: _, [], _, h₂ => by simp [lexLe] at h₂
  | a :: as, b :: bs, c :: cs, h₁, h₂ => by
    simp only [lexLe] at h₁ h₂ ⊢
    by_cases hab : a < b
    · by_cases hbc : b < c
      · simp [lt_trans hab hbc]
      · by_cases hcb : c < b
        · simp [hbc, hcb] at h₂
        · have hbc' : b = c := le_antisymm (le_of_not_lt hcb) (le_of_not_lt hbc)
          subst hbc'
          simp [hab]
    · by_cases hba : b < a
      · simp [hab, hba] at h₁
      · have hab' : a = b := le_antisymm (le_of_not_lt hba) (le_of_not_lt hab)
        subst hab'
        simp only [lt_irrefl, if_false] at h₁
        by_cases hac : a < c
        · simp [hac]
        · by_cases hca : c < a
          · simp [hac, hca] at h₂
          · simp only [hac, hca, if_false] at h₂ ⊢
            exact lexLe_trans as bs cs h₁ h₂

/-- Every error raised while walking the entries of a language map starts
with the context path it was called with. -/
theorem parseLangMapItems_error_ctx (ctx : String) :
    ∀ (entries : List (JVal × JVal)) (out : List (String × String)) (e : String),
      parseLangMapItems ctx entries out = .error e → ∃ s, e = ctx ++ s := by
  intro entries
  induction entries with
  | nil => intro out e h; simp [parseLangMapItems] at h
  | cons kv rest ih =>
    intro out e h
    obtain ⟨k, v⟩ := kv
    cases k <;> cases v <;> simp only [parseLangMapItems] at h <;>
      (try split_ifs at h) <;>
      first
        | exact ⟨_, (Except.error.inj h).symm⟩
        | exact ih _ _ h

/-- Every error of `parse_lang_map` starts with its context path. -/
theorem parse_lang_map_error_ctx (v : JVal) (ctx : String) (e : String)
    (h : parse_lang_map v ctx = .error e) : ∃ s, e = ctx ++ s := by
  cases v with
  | null => simp [parse_lang_map] at h
  | obj entries => exact parseLangMapItems_error_ctx ctx entries [] e h
  | bool b => exact ⟨_, (Except.error.inj h).symm⟩
  | int n => exact ⟨_, (Except.error.inj h).symm⟩
  | str s => exact ⟨_, (Except.error.inj h).symm⟩
  | list xs => exact ⟨_, (Except.error.inj h).symm⟩

/-- An error of the fail-fast loop is the error of one of its elements. -/
theorem itemLoop_error {β : Type} (f : Nat → JVal → Except String β) :
    ∀ (k : Nat) (xs : List JVal) (e : String), itemLoop f k xs = .error e →
      ∃ i x, f i x = .error e := by
  intro k xs
  induction xs generalizing k with
  | nil => intro e h; simp [itemLoop] at h
  | cons x xs ih =>
    intro e h
    cases hf : f k x with
    | error e2 =>
      simp only [itemLoop, hf] at h
      have he : e2 = e := Except.error.inj h
      subst he
      exact ⟨k, x, hf⟩
    | ok b =>
      simp only [itemLoop, hf] at h
      cases hrec : itemLoop f (k + 1) xs with
      | error e2 =>
        rw [hrec] at h
        have he : e2 = e := Except.error.inj h
        subst he
        exact ih (k + 1) _ hrec
      | ok out => rw [hrec] at h; cases h

/-- When every element before position `pre.length` parses and the element
there fails with `e`, the fail-fast loop returns exactly `e`. -/
theorem itemLoop_first_error {β : Type} (f : Nat → JVal → Except String β) (e : String) :
    ∀ (k : Nat) (pre : List JVal) (bad : JVal) (rest : List JVal),
      (∀ j (hj : j < pre.length), ∃ b, f (k + j) (pre.get ⟨j, hj⟩) = .ok b) →
      f (k + pre.length) bad = .error e →
      itemLoop f k (pre ++ bad :: rest) = .error e := by
  intro k pre
  induction pre generalizing k with
  | nil =>
    intro bad rest _ hbad
    simp only [List.length_nil, Nat.add_zero] at hbad
    simp only [List.nil_append, itemLoop, hbad]
  | cons p ps ih =>
    intro bad rest hpre hbad
    obtain ⟨b, hb⟩ := hpre 0 (by simp)
    have hb' : f k p = .ok b := by simpa using hb
    have hpre' : ∀ j (hj : j < ps.length), ∃ b2, f (k + 1 + j) (ps.get ⟨j, hj⟩) = .ok b2 := by
      intro j hj
      have h2 := hpre (j + 1) (by simpa using Nat.succ_lt_succ hj)
      have harith : k + (j + 1) = k + 1 + j := by omega
      rw [harith] at h2
      exact h2
    have hbad' : f (k + 1 + ps.length) bad = .error e := by
      have harith : k + (p :: ps).length = k + 1 + ps.length := by
        simp only [List.length_cons]; omega
      rw [harith] at hbad
      exact hbad
    have hrec := ih (k + 1) bad rest hpre' hbad'
    simp only [List.cons_append, itemLoop, hb', List.append_eq]
    rw [hrec]

/-- Every error raised by one `_parse_links` loop iteration starts with
the context path. -/
theorem linkParse1_error_ctx (ctx : String) (i : Nat) (it : JVal) (e : String)
    (h : linkParse1 ctx i it = .error e) : ∃ s, e = ctx ++ s := by
  cases it with
  | obj kvs =>
    simp only [linkParse1] at h
    cases hid : asPyInt (dictGet kvs "id") with
    | none => rw [hid] at h; exact ⟨_, (Except.error.inj h).symm⟩
    | some lid =>
      rw [hid] at h
      cases htitle : asNonEmptyStr (dictGet kvs "title") with
      | none => rw [htitle] at h; exact ⟨_, (Except.error.inj h).symm⟩
      | some t =>
        rw [htitle] at h
        cases htr : parse_lang_map (dictGet kvs "translate")
            (ctx ++ ("[" ++ (toString i ++ "].translate"))) with
        | error e2 =>
          rw [htr] at h
          cases h
          obtain ⟨s, hs⟩ := parse_lang_map_error_ctx _ _ _ htr
          rw [str_append_assoc] at hs
          exact ⟨_, hs⟩
        | ok tr => rw [htr] at h; cases h
  | null => exact ⟨_, (Except.error.inj h).symm⟩
  | bool b => exact ⟨_, (Except.error.inj h).symm⟩
  | int n => exact ⟨_, (Except.error.inj h).symm⟩
  | str s => exact ⟨_, (Except.error.inj h).symm⟩
  | list xs => exact ⟨_, (Except.error.inj h).symm⟩

/-- Every error of `parse_links` starts with its context path. -/
theorem parse_links_error_ctx (v : JVal) (ctx : String) (e : String)
    (h : parse_links v ctx = .error e) : ∃ s, e = ctx ++ s := by
  cases v with
  | null => simp [parse_links] at h
  | list xs =>
    obtain ⟨i, x, hx⟩ := itemLoop_error (linkParse1 ctx) 0 xs e h
    exact linkParse1_error_ctx ctx i x e hx
  | bool b => exact ⟨_, (Except.error.inj h).symm⟩
  | int n => exact ⟨_, (Except.error.inj h).symm⟩
  | str s => exact ⟨_, (Except.error.inj h).symm⟩
  | obj o => exact ⟨_, (Except.error.inj h).symm⟩

/-- Every error raised by one `parse_messages` loop iteration starts with
the path `messages[i]` of that element. -/
theorem msgParse1_error_ctx (i : Nat) (it : JVal) (e : String)
    (h : msgParse1 i it = .error e) : ∃ s, e = msgCtx i ++ s := by
  cases it with
  | obj kvs =>
    simp only [msgParse1] at h
    cases hid : asPyInt (dictGet kvs "id") with
    | none => rw [hid] at h; exact ⟨_, (Except.error.inj h).symm⟩
    | some mid =>
      rw [hid] at h
      cases himg : asOptInt (dictGet kvs "image_id") with
      | none => rw [himg] at h; exact ⟨_, (Except.error.inj h).symm⟩
      | some img =>
        rw [himg] at h
        cases htext : asOptText (dictGet kvs "text") with
        | none => rw [htext] at h; exact ⟨_, (Except.error.inj h).symm⟩
        | some txt =>
          rw [htext] at h
          cases hlinks : parse_links (dictGet kvs "links") (msgCtx i ++ ".links") with
          | error e2 =>
            rw [hlinks] at h
            cases h
            obtain ⟨s, hs⟩ := parse_links_error_ctx _ _ _ hlinks
            rw [str_append_assoc] at hs
            exact ⟨_, hs⟩
          | ok links =>
            rw [hlinks] at h
            cases htr : parse_lang_map (dictGet kvs "translate") (msgCtx i ++ ".translate") with
            | error e2 =>
              rw [htr] at h
              cases h
              obtain ⟨s, hs⟩ := parse_lang_map_error_ctx _ _ _ htr
              rw [str_append_assoc] at hs
              exact ⟨_, hs⟩
            | ok tr => rw [htr] at h; cases h
  | null => exact ⟨_, (Except.error.inj h).symm⟩
  | bool b => exact ⟨_, (Except.error.inj h).symm⟩
  | int n => exact ⟨_, (Except.error.inj h).symm⟩
  | str s => exact ⟨_, (Except.error.inj h).symm⟩
  | list xs => exact ⟨_, (Except.error.inj h).symm⟩

/-- Walking a block of well-formed entries only changes the accumulator. -/
theorem parseLangMapItems_append (ctx : String) :
    ∀ (pre tail : List (JVal × JVal)) (out : List (String × String)),
      (∀ p ∈ pre, entryOk p = true) →
      ∃ out2, parseLangMapItems ctx (pre ++ tail) out = parseLangMapItems ctx tail out2 := by
  intro pre
  induction pre with
  | nil => intro tail out _; exact ⟨out, rfl⟩
  | cons q qre ih =>
    intro tail out hok
    obtain ⟨k, v⟩ := q
    have hq := hok (k, v) (by simp)
    simp only [entryOk, Bool.and_eq_true] at hq
    obtain ⟨hk, hv⟩ := hq
    cases k with
    | str ks =>
      cases v with
      | str vs =>
        have hks : ¬ ks = "" := by intro h0; simp [keyOk, h0] at hk
        have hvs : ¬ vs = "" := by intro h0; simp [valOk, h0] at hv
        simp only [List.cons_append, parseLangMapItems, hks, hvs, if_neg, if_false]
        exact ih tail _ (fun p hp => hok p (by simp [hp]))
      | null => simp [valOk] at hv
      | bool b => simp [valOk] at hv
      | int n => simp [valOk] at hv
      | list l => simp [valOk] at hv
      | obj o => simp [valOk] at hv
    | null => simp [keyOk] at hk
    | bool b => simp [keyOk] at hk
    | int n => simp [keyOk] at hk
    | list l => simp [keyOk] at hk
    | obj o => simp [keyOk] at hk

/-- A language map whose entries are all well-formed parses successfully. -/
theorem parseLangMapItems_ok (ctx : String) :
    ∀ (entries : List (JVal × JVal)) (out : List (String × String)),
      (∀ p ∈ entries, entryOk p = true) →
      ∃ m, parseLangMapItems ctx entries out = .ok m := by
  intro entries
  induction entries with
  | nil => intro out _; exact ⟨out, rfl⟩
  | cons q qre ih =>
    intro out hok
    obtain ⟨out2, hout2⟩ := parseLangMapItems_append ctx [q] qre out
      (fun p hp => hok p (by simp at hp; simp [hp]))
    rw [List.singleton_append] at hout2
    rw [hout2]
    exact ih out2 (fun p hp => hok p (by simp [hp]))

/-- The key occurrences of a message list: one per message. -/
theorem mem_allLangKeys (msgs : List Message) (a : String) :
    a ∈ allLangKeys msgs ↔ ∃ m ∈ msgs, a ∈ msgKeys m := by
  unfold allLangKeys
  rw [List.mem_flatten]
  constructor
  · rintro ⟨l, hl, hal⟩
    obtain ⟨m, hm, rfl⟩ := List.mem_map.1 hl
    exact ⟨m, hm, hal⟩
  · rintro ⟨m, hm, ha⟩
    exact ⟨msgKeys m, List.mem_map.2 ⟨m, hm, rfl⟩, ha⟩

/-- The key occurrences of one message: its own translate keys and its
links' translate keys. -/
theorem mem_msgKeys (m : Message) (a : String) :
    a ∈ msgKeys m ↔
      (∃ t, (a, t) ∈ m.translate) ∨ ∃ lk ∈ m.links, ∃ t, (a, t) ∈ lk.translate := by
  unfold msgKeys linkKeys
  rw [List.mem_append]
  constructor
  · rintro (h | h)
    · obtain ⟨p, hp, hpa⟩ := List.mem_map.1 h
      have h2 : (p.1, p.2) ∈ m.translate := Prod.mk.eta.symm ▸ hp
      rw [hpa] at h2
      exact Or.inl ⟨p.2, h2⟩
    · obtain ⟨l2, hl2, hal2⟩ := List.mem_flatten.1 h
      obtain ⟨lk, hlk, rfl⟩ := List.mem_map.1 hl2
      obtain ⟨p, hp, hpa⟩ := List.mem_map.1 hal2
      have h2 : (p.1, p.2) ∈ lk.translate := Prod.mk.eta.symm ▸ hp
      rw [hpa] at h2
      exact Or.inr ⟨lk, hlk, p.2, h2⟩
  · rintro (⟨t, ht⟩ | ⟨lk, hlk, t, ht⟩)
    · exact Or.inl (List.mem_map.2 ⟨(a, t), ht, rfl⟩)
    · exact Or.inr (List.mem_flatten.2 ⟨lk.translate.map Prod.fst,
        List.mem_map.2 ⟨lk, hlk, rfl⟩, List.mem_map.2 ⟨(a, t), ht, rfl⟩⟩)

/-- Membership in the aggregated language list is exactly having a key in
some message's or some link's translate map. -/
theorem mem_collect_available_langs (msgs : List Message) (a : String) :
    a ∈ collect_available_langs msgs ↔
      ∃ m ∈ msgs, ((∃ t, (a, t) ∈ m.translate) ∨ ∃ lk ∈ m.links, ∃ t, (a, t) ∈ lk.translate) := by
  unfold collect_available_langs
  rw [List.mem_insertionSort, List.mem_dedup, mem_allLangKeys]
  constructor
  · rintro ⟨m, hm, h⟩
    exact ⟨m, hm, (mem_msgKeys m a).1 h⟩
  · rintro ⟨m, hm, h⟩
    exact ⟨m, hm, (mem_msgKeys m a).2 h⟩

/-- Adding an element to a set always makes it a member. -/
theorem mem_setAdd (s : List String) (x : String) : x ∈ setAdd s x := by
  unfold setAdd
  by_cases h : x ∈ s
  · simp [h]
  · simp [h]

/-- C1: when every message element before position `pre.length` is
well-formed and the element there is malformed with error `e`,
`parse_messages` raises exactly `e`, whose text starts with the path
`messages[i]` of that lowest-indexed malformed element (by `msgParse1`'s
case analysis the rest of the text names the specific offending field),
and no Message list is returned — the parse fails atomically. -/
theorem parse_messages_fail_fast (pre : List JVal) (bad : JVal) (rest : List JVal) (e : String)
    (hpre : ∀ j (hj : j < pre.length), ∃ m, msgParse1 j (pre.get ⟨j, hj⟩) = .ok m)
    (hbad : msgParse1 pre.length bad = .error e) :
    parse_messages (.list (pre ++ bad :: rest)) = .error e ∧
    (∃ s, e = msgCtx pre.length ++ s) ∧
    ∀ ms, parse_messages (.list (pre ++ bad :: rest)) ≠ .ok ms := by
  have h1 : itemLoop msgParse1 0 (pre ++ bad :: rest) = .error e := by
    apply itemLoop_first_error msgParse1 e 0 pre bad rest
    · intro j hj
      simpa using hpre j hj
    · simpa using hbad
  refine ⟨h1, msgParse1_error_ctx _ _ _ hbad, ?_⟩
  intro ms hcontra
  rw [show parse_messages (.list (pre ++ bad :: rest)) =
    itemLoop msgParse1 0 (pre ++ bad :: rest) from rfl, h1] at hcontra
  cases hcontra

/-- C1 witness: a payload whose second element lacks `id` fails with the
`messages[1].id` error even though a valid third element follows. -/
theorem parse_messages_fail_fast_witness :
    parse_messages (.list [.obj [(.str "id", .int 1)], .obj [], .int 5]) =
      .error (msgCtx 1 ++ ".id must be an integer") := by
  refine (parse_messages_fail_fast [.obj [(.str "id", .int 1)]] (.obj []) [.int 5]
    (msgCtx 1 ++ ".id must be an integer") ?_ rfl).1
  intro j hj
  have hj0 : j = 0 := Nat.lt_one_iff.mp (by simpa using hj)
  subst hj0
  exact ⟨⟨.int 1, none, none, [], []⟩, rfl⟩

/-- C9: a JSON boolean passes the `isinstance(..., int)` check for message
and link ids — Python `bool` subclasses `int` — so `parse_messages`
accepts it and stores the boolean itself as the id. -/
theorem parse_messages_accepts_bool_id :
    parse_messages (.list [.obj [(.str "id", .bool true)]]) =
      .ok [⟨PyInt.bool true, none, none, [], []⟩] ∧
    parse_links (.list [.obj [(.str "id", .bool false), (.str "title", .str "x")]])
      "messages[0].links" = .ok [⟨PyInt.bool false, "x", []⟩] :=
  ⟨rfl, rfl⟩

/-- C10: `get_selected_lang` returns `none` exactly when the stored value
is the sentinel `"<None>"`; committing the language `"<None>"` succeeds
and adds it to `extra_langs`, yet the stored selection then reads back as
`none` (native view), and selecting `"<None>"` explicitly also reads back
as `none` — the language named `"<None>"` is unselectable. -/
theorem selected_lang_sentinel_conflict :
    (∀ st : SessionState, get_selected_lang st = none ↔ st.selected_lang = "<None>") ∧
    (∀ st : SessionState,
      "<None>" ∈ (commitAddLanguage "<None>" st).extra_langs ∧
      (commitAddLanguage "<None>" st).selected_lang = "<None>" ∧
      get_selected_lang (commitAddLanguage "<None>" st) = none) ∧
    (∀ st : SessionState, get_selected_lang (set_selected_lang (some "<None>") st) = none) := by
  refine ⟨?_, ?_, ?_⟩
  · intro st
    unfold get_selected_lang
    by_cases h : st.selected_lang = "<None>"
    · simp [h]
    · simp [h]
  · intro st
    exact ⟨mem_setAdd st.extra_langs "<None>", rfl, rfl⟩
  · intro st
    rfl

/-- C3: `collect_available_langs` returns a lexicographically sorted
(`strLeP` is code-point lexicographic order), duplicate-free list whose
members are exactly the union of the keys of every message's and every
link's translate map; it is a pure function of the message list, so two
calls on an unmodified model trivially agree. -/
theorem collect_available_langs_spec (msgs : List Message) :
    List.Sorted strLeP (collect_available_langs msgs) ∧
    (collect_available_langs msgs).Nodup ∧
    ∀ a, a ∈ collect_available_langs msgs ↔
      ∃ m ∈ msgs, ((∃ t, (a, t) ∈ m.translate) ∨
        ∃ lk ∈ m.links, ∃ t, (a, t) ∈ lk.translate) := by
  refine ⟨?_, ?_, fun a => mem_collect_available_langs msgs a⟩
  · haveI : IsTotal String strLeP := ⟨fun a b => lexLe_total a.data b.data⟩
    haveI : IsTrans String strLeP := ⟨fun a b c => lexLe_trans a.data b.data c.data⟩
    exact List.sorted_insertionSort strLeP _
  · exact (List.perm_insertionSort strLeP _).nodup_iff.mpr (List.nodup_dedup _)

/-- C5: when the stored draft strips to the empty string — so in
particular for whitespace-only drafts exactly as for empty ones — the save
handler sets the overlay error to "Translation is empty.", leaves the rest
of the state (the draft included) and the message untouched, and never
consults the provider: the result is independent of the provider. -/
theorem save_click_empty_draft (message : Message) (lang : String)
    (p q : PyInt → String → String → Option String) (st : SessionState)
    (h : pyStrip (lookupDraft st message.id lang) = "") :
    save_click message lang p st =
      ({ st with overlay_error := some "Translation is empty." }, message) ∧
    save_click message lang p st = save_click message lang q st ∧
    (save_click message lang p st).1.drafts = st.drafts := by
  have hp : save_click message lang p st =
      ({ st with overlay_error := some "Translation is empty." }, message) := by
    simp only [save_click]
    rw [if_pos h]
  have hq : save_click message lang q st =
      ({ st with overlay_error := some "Translation is empty." }, message) := by
    simp only [save_click]
    rw [if_pos h]
  exact ⟨hp, hp.trans hq.symm, by rw [hp]⟩

/-- C5 witness: a whitespace-only draft triggers the local error with the
draft retained, at a provider that would reject everything. -/
theorem save_click_empty_draft_witness :
    save_click ⟨.int 1, none, some "t", [], []⟩ "es" (fun _ _ _ => some "never")
      ⟨"es", [], false, none, [((.int 1, "es"), "   ")]⟩ =
      (⟨"es", [], false, some "Translation is empty.", [((.int 1, "es"), "   ")]⟩,
       ⟨.int 1, none, some "t", [], []⟩) := by
  exact (save_click_empty_draft ⟨.int 1, none, some "t", [], []⟩ "es"
    (fun _ _ _ => some "never") (fun _ _ _ => none)
    ⟨"es", [], false, none, [((.int 1, "es"), "   ")]⟩ (by decide)).1

/-- C4 (amended): on provider success the handler writes the stripped
draft into the message's translate map, and the session state — the draft
entry for `(messageId, lang)` included — is returned unchanged: the draft
is retained, not discarded. -/
theorem save_click_success (message : Message) (lang : String)
    (provider : PyInt → String → String → Option String) (st : SessionState)
    (hne : pyStrip (lookupDraft st message.id lang) ≠ "")
    (hok : provider message.id lang (pyStrip (lookupDraft st message.id lang)) = none) :
    save_click message lang provider st =
      (st, { message with
        translate := updateAssoc message.translate lang
          (pyStrip (lookupDraft st message.id lang)) }) ∧
    (save_click message lang provider st).1 = st := by
  have h : save_click message lang provider st =
      (st, { message with
        translate := updateAssoc message.translate lang
          (pyStrip (lookupDraft st message.id lang)) }) := by
    simp only [save_click]
    rw [if_neg hne, hok]
  exact ⟨h, by rw [h]⟩

/-- C4 witness: saving the draft "  Hola  " with a succeeding provider
stores the trimmed "Hola" and returns the session state unchanged. -/
theorem save_click_success_witness :
    save_click ⟨.int 1, none, some "t", [], []⟩ "es" (fun _ _ _ => none)
      ⟨"es", [], false, none, [((.int 1, "es"), "  Hola  ")]⟩ =
      (⟨"es", [], false, none, [((.int 1, "es"), "  Hola  ")]⟩,
       ⟨.int 1, none, some "t", [], [("es", "Hola")]⟩) := by
  exact (save_click_success ⟨.int 1, none, some "t", [], []⟩ "es" (fun _ _ _ => none)
    ⟨"es", [], false, none, [((.int 1, "es"), "  Hola  ")]⟩ (by decide) rfl).1

/-- C4 counterexample: after the successful save of draft "  Hola  " the
trimmed text is written, but the draft entry is still present in the
session state and still readable — it is not discarded/cleared as the
claim states. -/
theorem save_click_success_keeps_draft :
    (save_click ⟨.int 1, none, some "t", [], []⟩ "es" (fun _ _ _ => none)
      ⟨"es", [], false, none, [((.int 1, "es"), "  Hola  ")]⟩).2.translate =
      [("es", "Hola")] ∧
    (save_click ⟨.int 1, none, some "t", [], []⟩ "es" (fun _ _ _ => none)
      ⟨"es", [], false, none, [((.int 1, "es"), "  Hola  ")]⟩).1.drafts =
      [((.int 1, "es"), "  Hola  ")] ∧
    lookupDraft (save_click ⟨.int 1, none, some "t", [], []⟩ "es" (fun _ _ _ => none)
      ⟨"es", [], false, none, [((.int 1, "es"), "  Hola  ")]⟩).1 (.int 1) "es" =
      "  Hola  " :=
  ⟨rfl, rfl, rfl⟩

/-- C6 (amended): when the input strips to the empty string the handler
only sets the overlay error — `extra_langs`, `selected_lang` and
`adding_lang` are unchanged; otherwise it adds the STRIPPED code to
`extra_langs`, selects the stripped code and leaves add mode. -/
theorem commitAddLanguage_spec (code : String) (st : SessionState) :
    (pyStrip code = "" →
      commitAddLanguage code st = { st with overlay_error := some "Language name is empty." }) ∧
    (pyStrip code ≠ "" →
      commitAddLanguage code st =
        { st with extra_langs := setAdd st.extra_langs (pyStrip code),
                  selected_lang := pyStrip code, adding_lang := false }) := by
  constructor
  · intro h
    simp only [commitAddLanguage]
    rw [if_pos h]
  · intro h
    simp only [commitAddLanguage]
    rw [if_neg h]

/-- C6 witness: a blank input only sets the error (state otherwise
unchanged, `adding_lang` stays true), a non-blank input is added stripped
and selected. -/
theorem commitAddLanguage_spec_witness :
    commitAddLanguage "  " ⟨"<None>", [], true, none, []⟩ =
      ⟨"<None>", [], true, some "Language name is empty.", []⟩ ∧
    commitAddLanguage " es " ⟨"<None>", [], true, none, []⟩ =
      ⟨"es", ["es"], false, none, []⟩ := by
  constructor
  · exact (commitAddLanguage_spec "  " ⟨"<None>", [], true, none, []⟩).1 (by decide)
  · exact (commitAddLanguage_spec " es " ⟨"<None>", [], true, none, []⟩).2 (by decide)

/-- C6 counterexample: `commitAddLanguage "  es  "` stores the stripped
code "es" — the raw input "  es  " is neither added to `extra_langs` nor
selected, refuting the claim that "the code" itself is added/selected. -/
theorem commitAddLanguage_adds_trimmed :
    (commitAddLanguage "  es  " ⟨"<None>", [], true, none, []⟩).extra_langs = ["es"] ∧
    "  es  " ∉ (commitAddLanguage "  es  " ⟨"<None>", [], true, none, []⟩).extra_langs ∧
    (commitAddLanguage "  es  " ⟨"<None>", [], true, none, []⟩).selected_lang = "es" :=
  ⟨rfl, by decide, rfl⟩

/-- C8: a stored selection that is neither `"<None>"` nor a member of
`collect_available_langs(model) ∪ extra_langs` is clamped back to the
sentinel `"<None>"` (which reads as the native view) by the defensive
per-render validation, rather than causing an error; and storing any
selection via `set_selected_lang` never produces an error. -/
theorem render_clamp_unknown (msgs : List Message) (extra : List String) (stored : String)
    (h1 : stored ≠ "<None>")
    (h2 : stored ∉ collect_available_langs msgs)
    (h3 : stored ∉ extra) :
    render_clamp stored (collect_available_langs msgs) extra = "<None>" ∧
    (∀ st : SessionState, st.selected_lang = "<None>" → get_selected_lang st = none) ∧
    (∀ (l : Option String) (st : SessionState),
      (set_selected_lang l st).overlay_error = st.overlay_error) := by
  refine ⟨?_, ?_, ?_⟩
  · have hnotmem : stored ∉ "<None>" ::
        List.insertionSort strLeP ((collect_available_langs msgs ++ extra).dedup) := by
      intro hmem
      rcases List.mem_cons.1 hmem with h | h
      · exact h1 h
      · rw [List.mem_insertionSort, List.mem_dedup, List.mem_append] at h
        rcases h with h | h
        · exact h2 h
        · exact h3 h
    simp only [render_clamp]
    rw [if_neg hnotmem]
  · intro st hsel
    unfold get_selected_lang
    simp [hsel]
  · intro l st
    cases l <;> rfl

/-- C8 witness: with available language "en" and extra language "de", the
stored selection "fr" is clamped to the sentinel. -/
theorem render_clamp_unknown_witness :
    render_clamp "fr"
      (collect_available_langs [⟨.int 1, none, none, [], [("en", "x")]⟩]) ["de"] = "<None>" :=
  (render_clamp_unknown [⟨.int 1, none, none, [], [("en", "x")]⟩] ["de"] "fr"
    (by decide) (by decide) (by decide)).1

/-- C2 counterexample: in the bad-key case the raised error is the same
fixed string `"{ctx} keys must be non-empty strings (lang codes)"` no
matter which key offends — two inputs with different offending keys (and
one with an empty string key) produce literally identical errors whose
path part is just `ctx`, so the error does not identify the offending key
in the path, contrary to the claim that it does in both failure cases. -/
theorem parse_lang_map_bad_key_not_identified :
    parse_lang_map (.obj [(.int 1, .str "x")]) "ctx" =
      .error "ctx keys must be non-empty strings (lang codes)" ∧
    parse_lang_map (.obj [(.int 2, .str "x")]) "ctx" =
      .error "ctx keys must be non-empty strings (lang codes)" ∧
    parse_lang_map (.obj [(.str "", .str "x")]) "ctx" =
      .error "ctx keys must be non-empty strings (lang codes)" :=
  ⟨rfl, rfl, rfl⟩

/-- C2 (amended): `parse_lang_map` maps `null` to the empty map and fails
on any non-dict; the first entry (in order) with a bad key raises
`"{ctx} keys must be non-empty strings (lang codes)"` — the offending key
is NOT identified — while a bad value under a good key `k` raises
`"{ctx}[{k}] must be a non-empty string"`, identifying the key; a map with
all entries well-formed parses successfully. -/
theorem parse_lang_map_spec :
    (∀ ctx, parse_lang_map .null ctx = .ok []) ∧
    (∀ ctx v, v ≠ JVal.null → isDict v = false →
      parse_lang_map v ctx = .error (ctx ++ " must be an object/dict \x7blang: text\x7d")) ∧
    (∀ ctx (pre : List (JVal × JVal)) kv rest, (∀ p ∈ pre, entryOk p = true) →
      keyOk kv.1 = false →
      parse_lang_map (.obj (pre ++ kv :: rest)) ctx =
        .error (ctx ++ " keys must be non-empty strings (lang codes)")) ∧
    (∀ ctx (pre : List (JVal × JVal)) ks v rest, (∀ p ∈ pre, entryOk p = true) →
      ks ≠ "" → valOk v = false →
      parse_lang_map (.obj (pre ++ (.str ks, v) :: rest)) ctx =
        .error (ctx ++ ("[" ++ (ks ++ "] must be a non-empty string")))) ∧
    (∀ ctx (entries : List (JVal × JVal)), (∀ p ∈ entries, entryOk p = true) →
      ∃ m, parse_lang_map (.obj entries) ctx = .ok m) := by
  refine ⟨fun ctx => rfl, ?_, ?_, ?_, ?_⟩
  · intro ctx v h0 h1
    cases v with
    | null => exact absurd rfl h0
    | obj o => simp [isDict] at h1
    | bool b => rfl
    | int n => rfl
    | str s => rfl
    | list xs => rfl
  · intro ctx pre kv rest hok hkey
    obtain ⟨out2, h⟩ := parseLangMapItems_append ctx pre (kv :: rest) [] hok
    show parseLangMapItems ctx (pre ++ kv :: rest) [] = _
    rw [h]
    obtain ⟨k, v⟩ := kv
    cases k with
    | str ks =>
      have hks : ks = "" := by
        by_contra hne
        simp [keyOk, hne] at hkey
      subst hks
      simp [parseLangMapItems]
    | null => simp [parseLangMapItems]
    | bool b => simp [parseLangMapItems]
    | int n => simp [parseLangMapItems]
    | list l => simp [parseLangMapItems]
    | obj o => simp [parseLangMapItems]
  · intro ctx pre ks v rest hok hks hval
    obtain ⟨out2, h⟩ := parseLangMapItems_append ctx pre ((JVal.str ks, v) :: rest) [] hok
    show parseLangMapItems ctx (pre ++ (JVal.str ks, v) :: rest) [] = _
    rw [h]
    cases v with
    | str vs =>
      have hvs : vs = "" := by
        by_contra hne
        simp [valOk, hne] at hval
      subst hvs
      simp [parseLangMapItems, hks]
    | null => simp [parseLangMapItems, hks]
    | bool b => simp [parseLangMapItems, hks]
    | int n => simp [parseLangMapItems, hks]
    | list l => simp [parseLangMapItems, hks]
    | obj o => simp [parseLangMapItems, hks]
  · intro ctx entries hok
    exact parseLangMapItems_ok ctx entries [] hok

/-- C2 witness: a non-string key after a good entry yields the fixed
bad-key error; an empty value under key "de" yields the key-qualified
bad-value error. -/
theorem parse_lang_map_spec_witness :
    parse_lang_map (.obj [(.str "en", .str "Hi"), (.int 7, .str "x")]) "c" =
      .error ("c" ++ " keys must be non-empty strings (lang codes)") ∧
    parse_lang_map (.obj [(.str "en", .str "Hi"), (.str "de", .str "")]) "c" =
      .error ("c" ++ ("[" ++ ("de" ++ "] must be a non-empty string"))) := by
  constructor
  · exact parse_lang_map_spec.2.2.1 "c" [(.str "en", .str "Hi")] (.int 7, .str "x") []
      (by decide) (by decide)
  · exact parse_lang_map_spec.2.2.2.1 "c" [(.str "en", .str "Hi")] "de" (.str "") []
      (by decide) (by decide) (by decide)

/-- C7: `parse_links` maps `null` to the empty list; within an element the
fields are checked `id`, then `title`, then `translate` — an invalid `id`
is reported no matter what the other fields hold, an invalid `title` is
reported whenever `id` is valid, a `translate` failure is reported only
when both are valid — and across elements the first invalid element (in
input order) determines the single reported error. -/
theorem parse_links_field_order :
    (∀ ctx, parse_links .null ctx = .ok []) ∧
    (∀ ctx (i : Nat) kvs, asPyInt (dictGet kvs "id") = none →
      linkParse1 ctx i (.obj kvs) =
        .error (ctx ++ ("[" ++ (toString i ++ "].id must be an integer")))) ∧
    (∀ ctx (i : Nat) kvs lid, asPyInt (dictGet kvs "id") = some lid →
      asNonEmptyStr (dictGet kvs "title") = none →
      linkParse1 ctx i (.obj kvs) =
        .error (ctx ++ ("[" ++ (toString i ++ "].title must be a non-empty string")))) ∧
    (∀ ctx (i : Nat) kvs lid t e, asPyInt (dictGet kvs "id") = some lid →
      asNonEmptyStr (dictGet kvs "title") = some t →
      parse_lang_map (dictGet kvs "translate")
        (ctx ++ ("[" ++ (toString i ++ "].translate"))) = .error e →
      linkParse1 ctx i (.obj kvs) = .error e) ∧
    (∀ ctx (pre : List JVal) bad rest e,
      (∀ j (hj : j < pre.length), ∃ lk, linkParse1 ctx j (pre.get ⟨j, hj⟩) = .ok lk) →
      linkParse1 ctx pre.length bad = .error e →
      parse_links (.list (pre ++ bad :: rest)) ctx = .error e) := by
  refine ⟨fun ctx => rfl, ?_, ?_, ?_, ?_⟩
  · intro ctx i kvs hid
    simp only [linkParse1]
    rw [hid]
  · intro ctx i kvs lid hid htitle
    simp only [linkParse1]
    rw [hid, htitle]
  · intro ctx i kvs lid t e hid htitle htr
    simp only [linkParse1]
    rw [hid, htitle, htr]
  · intro ctx pre bad rest e hpre hbad
    show itemLoop (linkParse1 ctx) 0 (pre ++ bad :: rest) = .error e
    apply itemLoop_first_error (linkParse1 ctx) e 0 pre bad rest
    · intro j hj
      simpa using hpre j hj
    · simpa using hbad

/-- C7 witness: a bad `id` wins over a bad `title` within one element; a
bad `title` is reported when `id` is fine; the first invalid element of
the list determines the error even with a later element present. -/
theorem parse_links_field_order_witness :
    linkParse1 "c" 0 (.obj [(.str "title", .str ""), (.str "id", .str "z")]) =
      .error ("c" ++ ("[" ++ (toString 0 ++ "].id must be an integer"))) ∧
    linkParse1 "c" 1 (.obj [(.str "id", .int 3), (.str "title", .bool true)]) =
      .error ("c" ++ ("[" ++ (toString 1 ++ "].title must be a non-empty string"))) ∧
    parse_links (.list [.obj [(.str "id", .int 1), (.str "title", .str "t")], .str "zz"]) "c" =
      .error ("c" ++ ("[" ++ (toString 1 ++ "] must be an object"))) := by
  refine ⟨?_, ?_, ?_⟩
  · exact parse_links_field_order.2.1 "c" 0 _ rfl
  · exact parse_links_field_order.2.2.1 "c" 1 _ (.int 3) rfl rfl
  · refine parse_links_field_order.2.2.2.2 "c"
      [.obj [(.str "id", .int 1), (.str "title", .str "t")]] (.str "zz") [] _ ?_ rfl
    intro j hj
    have hj0 : j = 0 := Nat.lt_one_iff.mp (by simpa using hj)
    subst hj0
    exact ⟨⟨.int 1, "t", []⟩, rfl⟩

end Proxima
